import Mathlib

/-!
Shallow embedding of the data-ingestion pipeline of `snap-clone`
(`src/data-ingestion/ingest.py`): the text normalizer `clean_text`, the
chunking engine `chunk_text`, the chunk identity `generate_chunk_id`
(including a full executable MD5), and the embedding/upsert batching logic.

Python strings are modelled as `List Char`.  Character-class predicates
(`\s`, `str.lower`, `str.isupper`, `str.strip`) are modelled over their
ASCII behaviour, which is the fragment exercised by this corpus.  Python
regular-expression substitutions are modelled by scanners with the exact
leftmost, non-overlapping semantics of `re.sub` for the concrete patterns
appearing in the source; greedy backtracking for those patterns is resolved
explicitly (comments at each matcher).  Functions that walk a string while
consuming a match use a fuel argument equal to the string length; every
successful match consumes at least one character, so the fuel never runs
out and the definitions are total without well-founded recursion.
-/

abbrev Str := List Char

/-- ASCII fragment of Python's `\s` character class. -/
def isSpacePy (c : Char) : Bool :=
  c == ' ' || c == '\t' || c == '\n' || c == '\r' || c == '\x0b' || c == '\x0c'

/-- ASCII digit test (`\d`). -/
def isDigitC (c : Char) : Bool := '0' ≤ c && c ≤ '9'

/-- Python `str.strip()` (ASCII whitespace). -/
def strip (s : Str) : Str :=
  ((s.dropWhile isSpacePy).reverse.dropWhile isSpacePy).reverse

/-- `re.sub(r'\s+', ' ', text)`: every maximal whitespace run becomes one
space.  The `Bool` flag records whether we are inside a run whose single
replacement space has already been emitted. -/
def collapseGo : Bool → Str → Str
  | _, [] => []
  | inRun, c :: rest =>
    if isSpacePy c then
      (if inRun then collapseGo true rest else ' ' :: collapseGo true rest)
    else c :: collapseGo false rest

def collapseWs (s : Str) : Str := collapseGo false s

/-- Largest index of `c` in the list, if any. -/
def lastIdxOf (c : Char) : Str → Option Nat
  | [] => Option.none
  | a :: rest =>
    match lastIdxOf c rest with
    | Option.some j => Option.some (j + 1)
    | Option.none => if a == c then Option.some 0 else Option.none

/-- Matcher for `r'\n\d+\s*\n'` at the head of the string; returns the
number of characters consumed.  `\d+` is effectively maximal (giving back a
digit would put `\s*` in front of a digit, which then fails on `'\n'`), and
the greedy `\s*` followed by `'\n'` matches up to the last `'\n'` of the
maximal whitespace run after the digits. -/
def matchPageNum (s : Str) : Option Nat :=
  match s with
  | [] => Option.none
  | c :: rest =>
    if c = '\n' then
    let ds := rest.takeWhile isDigitC
    if ds.isEmpty then Option.none
    else
      let r1 := rest.drop ds.length
      let ws := r1.takeWhile isSpacePy
      match lastIdxOf '\n' ws with
      | Option.some j => Option.some (1 + ds.length + j + 1)
      | Option.none => Option.none
    else Option.none

/-- Matcher for `r'\n\s*Page \d+\s*\n'` at the head of the string.  The
first greedy `\s*` must end exactly at the maximal whitespace run (no
whitespace character equals `'P'`, so backtracking cannot help). -/
def matchPageFooter (s : Str) : Option Nat :=
  match s with
  | [] => Option.none
  | c :: rest =>
    if c = '\n' then
    let w1 := rest.takeWhile isSpacePy
    let r1 := rest.drop w1.length
    if List.isPrefixOf ("Page ".data) r1 then
      let r2 := r1.drop 5
      let ds := r2.takeWhile isDigitC
      if ds.isEmpty then Option.none
      else
        let r3 := r2.drop ds.length
        let w2 := r3.takeWhile isSpacePy
        match lastIdxOf '\n' w2 with
        | Option.some j => Option.some (1 + w1.length + 5 + ds.length + j + 1)
        | Option.none => Option.none
    else Option.none
    else Option.none

/-- Character class of the URL body in
`r'http[s]?://(?:[a-zA-Z]|[0-9]|[$-_@.&+]|[!*\\(\\),]|(?:%[0-9a-fA-F][0-9a-fA-F]))+'`.
`[$-_@.&+]` is the byte range `0x24`–`0x5F` plus (redundantly) `@.&+`; the
`%hh` alternative is subsumed because `%` already lies in that range and
alternatives are tried left to right, so each iteration of the group
consumes exactly one character from this class. -/
def urlChar (c : Char) : Bool :=
  ('a' ≤ c && c ≤ 'z') || ('A' ≤ c && c ≤ 'Z') || ('0' ≤ c && c ≤ '9') ||
  ('$' ≤ c && c ≤ '_') || c == '@' || c == '.' || c == '&' || c == '+' ||
  c == '!' || c == '*' || c == '\\' || c == '(' || c == ')' || c == ','

/-- Matcher for the URL pattern at the head of the string (nothing follows
the final `+`, so it is simply maximal and nonempty). -/
def matchUrl (s : Str) : Option Nat :=
  if List.isPrefixOf ("http://".data) s then
    let run := (s.drop 7).takeWhile urlChar
    if run.isEmpty then Option.none else Option.some (7 + run.length)
  else if List.isPrefixOf ("https://".data) s then
    let run := (s.drop 8).takeWhile urlChar
    if run.isEmpty then Option.none else Option.some (8 + run.length)
  else Option.none

/-- Matcher for `r'\S+@\S+'` at the head of the string: the maximal
non-whitespace run matches as a whole exactly when it carries an `'@'` at
an internal position (at least one non-space character on each side). -/
def matchEmail (s : Str) : Option Nat :=
  let run := s.takeWhile (fun c => !(isSpacePy c))
  if (run.drop 1).dropLast.any (fun c => c == '@') then Option.some run.length
  else Option.none

/-- `re.sub` driver: scan left to right; at each position either replace a
match by `repl` and continue after it, or emit the character and advance.
`fuel` starts at the string length; every match consumes at least one
character, so the fuel suffices. -/
def subScan (m : Str → Option Nat) (repl : Str) : Nat → Str → Str
  | 0, s => s
  | _ + 1, [] => []
  | fuel + 1, c :: rest =>
    match m (c :: rest) with
    | Option.some k => repl ++ subScan m repl fuel ((c :: rest).drop k)
    | Option.none => c :: subScan m repl fuel rest

def pySubPageNum (s : Str) : Str := subScan matchPageNum ['\n'] s.length s

def pySubFooter (s : Str) : Str := subScan matchPageFooter ['\n'] s.length s

def pySubUrl (s : Str) : Str := subScan matchUrl [] s.length s

def pySubEmail (s : Str) : Str := subScan matchEmail [] s.length s

/-- `re.sub(r'[""]', '"', ·)` (curly double quotes `U+201C`/`U+201D`). -/
def mapDq (c : Char) : Char :=
  if c == Char.ofNat 8220 || c == Char.ofNat 8221 then '"' else c

/-- `re.sub(r'[''`]', "'", ·)` (curly single quotes `U+2018`/`U+2019` and
the backquote `U+0060`). -/
def mapSq (c : Char) : Char :=
  if c == Char.ofNat 8216 || c == Char.ofNat 8217 || c == Char.ofNat 96 then '\''
  else c

/-- `re.sub(r'[—–]', '-', ·)` (em dash `U+2014`, en dash `U+2013`). -/
def mapDash (c : Char) : Char :=
  if c == Char.ofNat 8212 || c == Char.ofNat 8211 then '-' else c

/-- `clean_text` (ingest.py lines 163–189), all steps in source order. -/
def clean_text (text : Str) : Str :=
  strip ((((pySubEmail (pySubUrl (pySubFooter (pySubPageNum
    (collapseWs text))))).map mapDq).map mapSq).map mapDash)

/-- Python `s.split('\n\n')`: leftmost, non-overlapping split on the
two-character separator. -/
def splitOnParaGo (acc : Str) : Str → List Str
  | [] => [acc.reverse]
  | [c] => [(c :: acc).reverse]
  | c1 :: c2 :: rest =>
    if c1 == '\n' && c2 == '\n' then acc.reverse :: splitOnParaGo [] rest
    else splitOnParaGo (c1 :: acc) (c2 :: rest)

def splitOnPara (s : Str) : List Str := splitOnParaGo [] s

-- Chunking configuration (ingest.py lines 49–51).
def CHUNK_SIZE : Nat := 1000
def CHUNK_OVERLAP : Nat := 200
def MIN_CHUNK_SIZE : Nat := 300

structure ChunkMeta where
  book : Str
  chapter : Str
  sectionLabel : Str
  chunk_id : Nat
  deriving DecidableEq

structure Chunk where
  text : Str
  metadata : ChunkMeta
  deriving DecidableEq

structure LoopState where
  chunks : List Chunk
  current_chunk : Str
  current_chapter : Str
  current_section : Str
  chunk_count : Nat
  deriving DecidableEq

/-- Python `str.lower()` restricted to ASCII. -/
def pyLower (c : Char) : Char :=
  if 'A' ≤ c && c ≤ 'Z' then Char.ofNat (c.toNat + 32) else c

/-- `pat in s` (Python substring containment). -/
def containsSub (pat : Str) : Str → Bool
  | [] => pat.isEmpty
  | c :: rest => List.isPrefixOf pat (c :: rest) || containsSub pat rest

/-- ASCII-cased character (for `str.isupper`). -/
def isCasedA (c : Char) : Bool :=
  ('a' ≤ c && c ≤ 'z') || ('A' ≤ c && c ≤ 'Z')

/-- Python `str.isupper()` over ASCII: at least one cased character and no
lowercase character. -/
def pyIsUpper (s : Str) : Bool :=
  s.any isCasedA && s.all (fun c => !('a' ≤ c && c ≤ 'z'))

/-- `re.match(r'^\d+\.', s)` as a Bool: a nonempty maximal leading digit
run followed by `'.'` (giving back a digit cannot help, as `'.'` is not a
digit). -/
def startsDigitsDot (s : Str) : Bool :=
  let ds := s.takeWhile isDigitC
  !ds.isEmpty && ((s.drop ds.length).head? == Option.some '.')

/-- The heading test of ingest.py lines 219–223, on the stripped
paragraph. -/
def headingCond (paragraph : Str) : Bool :=
  decide (paragraph.length < 100) &&
    (containsSub ("chapter".data) (paragraph.map pyLower) ||
     containsSub ("section".data) (paragraph.map pyLower) ||
     pyIsUpper paragraph ||
     startsDigitsDot paragraph)

/-- The chunk flushed from the accumulator (ingest.py lines 227–235 and
252–260): stripped text plus the current metadata. -/
def flushChunk (book : Str) (st : LoopState) : Chunk :=
  ⟨strip st.current_chunk,
   ⟨book, st.current_chapter, st.current_section, st.chunk_count⟩⟩

/-- The paragraph separator appended after each accumulated paragraph. -/
def nl2 : Str := ['\n', '\n']

/-- Python `current_chunk.split()[-30:]`: last (at most) 30 whitespace
separated words. -/
def pySplitGo (acc : Str) : Str → List Str
  | [] => if acc.isEmpty then [] else [acc.reverse]
  | c :: rest =>
    if isSpacePy c then
      (if acc.isEmpty then pySplitGo [] rest else acc.reverse :: pySplitGo [] rest)
    else pySplitGo (c :: acc) rest

def pySplit (s : Str) : List Str := pySplitGo [] s

def lastN (n : Nat) (l : List Str) : List Str := l.drop (l.length - n)

/-- One iteration of the paragraph loop of `chunk_text` (ingest.py lines
213–270). -/
def processParagraph (book : Str) (st : LoopState) (para : Str) : LoopState :=
  let paragraph := strip para
  if paragraph = [] then st
  else if headingCond paragraph then
    let st1 :=
      if MIN_CHUNK_SIZE ≤ st.current_chunk.length then
        { st with chunks := st.chunks ++ [flushChunk book st],
                  chunk_count := st.chunk_count + 1,
                  current_chunk := [] }
      else st
    if containsSub ("chapter".data) (paragraph.map pyLower) then
      { st1 with current_chapter := paragraph, current_section := [] }
    else
      { st1 with current_section := paragraph }
  else if CHUNK_SIZE < st.current_chunk.length + paragraph.length + 2 then
    if MIN_CHUNK_SIZE ≤ st.current_chunk.length then
      { chunks := st.chunks ++ [flushChunk book st],
        current_chunk :=
          List.intercalate [' '] (lastN 30 (pySplit st.current_chunk)) ++
            nl2 ++ paragraph ++ nl2,
        current_chapter := st.current_chapter,
        current_section := st.current_section,
        chunk_count := st.chunk_count + 1 }
    else
      { st with current_chunk := st.current_chunk ++ paragraph ++ nl2 }
  else
    { st with current_chunk := st.current_chunk ++ paragraph ++ nl2 }

def initState : LoopState := ⟨[], [], "Introduction".data, [], 0⟩

/-- The trailing flush after the paragraph loop (ingest.py lines 272–282):
note that this one tests the **stripped** accumulator length. -/
def finalFlush (book : Str) (st : LoopState) : List Chunk :=
  if MIN_CHUNK_SIZE ≤ (strip st.current_chunk).length then
    st.chunks ++ [flushChunk book st]
  else st.chunks

/-- The paragraph-based pass of `chunk_text` (ingest.py lines 202–282). -/
def paraChunks (text book : Str) : List Chunk :=
  finalFlush book
    ((splitOnPara (clean_text text)).foldl (processParagraph book) initState)

/-- Decimal digits of a natural number, fuel-driven (`fuel > n` suffices:
the recursive call is on `n / 10 < n`). -/
def digitChar (n : Nat) : Char := Char.ofNat (48 + n)

def natDigitsGo : Nat → Nat → Str
  | 0, _ => []
  | fuel + 1, n =>
    if n < 10 then [digitChar n]
    else natDigitsGo fuel (n / 10) ++ [digitChar (n % 10)]

/-- Python `str(n)` for a natural number. -/
def natRepr (n : Nat) : Str := natDigitsGo (n + 1) n

/-- `range(0, L, CHUNK_SIZE - CHUNK_OVERLAP)`. -/
def fallbackIndices (L : Nat) : List Nat :=
  (List.range ((L + (CHUNK_SIZE - CHUNK_OVERLAP) - 1) / (CHUNK_SIZE - CHUNK_OVERLAP))).map
    (fun k => k * (CHUNK_SIZE - CHUNK_OVERLAP))

/-- One iteration of the forced character-split loop (ingest.py lines
291–304). -/
def fallbackStep (clean book : Str) (acc : List Chunk × Nat) (i : Nat) :
    List Chunk × Nat :=
  let ct := (clean.drop i).take CHUNK_SIZE
  if MIN_CHUNK_SIZE ≤ ct.length then
    (acc.1 ++ [⟨ct, ⟨book, "Section ".data ++ natRepr (acc.2 / 10 + 1),
                     "Part ".data ++ natRepr (acc.2 % 10 + 1), acc.2⟩⟩],
     acc.2 + 1)
  else acc

/-- The character-stride fallback of `chunk_text` (ingest.py lines
285–304). -/
def fallbackPass (clean book : Str) : List Chunk :=
  ((fallbackIndices clean.length).foldl (fallbackStep clean book) ([], 0)).1

/-- `chunk_text` (ingest.py lines 191–306). -/
def chunk_text (text book : Str) : List Chunk :=
  if (paraChunks text book).length < 5 ∧
      CHUNK_SIZE * 2 < (clean_text text).length then
    fallbackPass (clean_text text) book
  else paraChunks text book

/-- The character windows of the fallback pass, before the minimum-size
filter. -/
def fallbackWindows (clean : Str) : List Str :=
  (fallbackIndices clean.length).map (fun i => (clean.drop i).take CHUNK_SIZE)

/-! ### Chunk identity: MD5 over the UTF-8 bytes of the id content

`generate_chunk_id` (ingest.py lines 342–353) hashes
`f"{book}_{chunk_id}_{text[:100]}"` with `hashlib.md5` and returns the hex
digest.  MD5 (RFC 1321) is implemented below on `Nat`s reduced mod `2^32`.
-/

def utf8Encode (c : Char) : List Nat :=
  let n := c.toNat
  if n < 128 then [n]
  else if n < 2048 then [192 + n / 64, 128 + n % 64]
  else if n < 65536 then
    [224 + n / 4096, 128 + (n / 64) % 64, 128 + n % 64]
  else
    [240 + n / 262144, 128 + (n / 4096) % 64, 128 + (n / 64) % 64, 128 + n % 64]

def utf8Bytes (s : Str) : List Nat := List.flatten (s.map utf8Encode)

def w32pow : Nat := 4294967296

def not32 (x : Nat) : Nat := Nat.xor x (w32pow - 1)

def rotl32 (x s : Nat) : Nat :=
  ((x % w32pow) * 2 ^ s + (x % w32pow) / 2 ^ (32 - s)) % w32pow

/-- Per-round sine-derived constants `K[i] = floor(2^32 * |sin(i+1)|)`. -/
def md5K : List Nat :=
  [0xd76aa478, 0xe8c7b756, 0x242070db, 0xc1bdceee,
   0xf57c0faf, 0x4787c62a, 0xa8304613, 0xfd469501,
   0x698098d8, 0x8b44f7af, 0xffff5bb1, 0x895cd7be,
   0x6b901122, 0xfd987193, 0xa679438e, 0x49b40821,
   0xf61e2562, 0xc040b340, 0x265e5a51, 0xe9b6c7aa,
   0xd62f105d, 0x02441453, 0xd8a1e681, 0xe7d3fbc8,
   0x21e1cde6, 0xc33707d6, 0xf4d50d87, 0x455a14ed,
   0xa9e3e905, 0xfcefa3f8, 0x676f02d9, 0x8d2a4c8a,
   0xfffa3942, 0x8771f681, 0x6d9d6122, 0xfde5380c,
   0xa4beea44, 0x4bdecfa9, 0xf6bb4b60, 0xbebfbc70,
   0x289b7ec6, 0xeaa127fa, 0xd4ef3085, 0x04881d05,
   0xd9d4d039, 0xe6db99e5, 0x1fa27cf8, 0xc4ac5665,
   0xf4292244, 0x432aff97, 0xab9423a7, 0xfc93a039,
   0x655b59c3, 0x8f0ccc92, 0xffeff47d, 0x85845dd1,
   0x6fa87e4f, 0xfe2ce6e0, 0xa3014314, 0x4e0811a1,
   0xf7537e82, 0xbd3af235, 0x2ad7d2bb, 0xeb86d391]

/-- Per-round left-rotation amounts. -/
def md5S : List Nat :=
  [7, 12, 17, 22, 7, 12, 17, 22, 7, 12, 17, 22, 7, 12, 17, 22,
   5, 9, 14, 20, 5, 9, 14, 20, 5, 9, 14, 20, 5, 9, 14, 20,
   4, 11, 16, 23, 4, 11, 16, 23, 4, 11, 16, 23, 4, 11, 16, 23,
   6, 10, 15, 21, 6, 10, 15, 21, 6, 10, 15, 21, 6, 10, 15, 21]

structure MD5State where
  a : Nat
  b : Nat
  c : Nat
  d : Nat
  deriving DecidableEq

def md5Init : MD5State := ⟨0x67452301, 0xefcdab89, 0x98badcfe, 0x10325476⟩

def md5F (i b c d : Nat) : Nat :=
  if i < 16 then Nat.lor (Nat.land b c) (Nat.land (not32 b) d)
  else if i < 32 then Nat.lor (Nat.land d b) (Nat.land (not32 d) c)
  else if i < 48 then Nat.xor (Nat.xor b c) d
  else Nat.xor c (Nat.lor b (not32 d))

def md5g (i : Nat) : Nat :=
  if i < 16 then i
  else if i < 32 then (5 * i + 1) % 16
  else if i < 48 then (3 * i + 5) % 16
  else (7 * i) % 16

def md5Round (M : List Nat) (st : MD5State) (i : Nat) : MD5State :=
  let f := (md5F i st.b st.c st.d + st.a + md5K.getD i 0 +
            M.getD (md5g i) 0) % w32pow
  ⟨st.d, (st.b + rotl32 f (md5S.getD i 0)) % w32pow, st.b, st.c⟩

/-- Process one 64-byte block: unpack 16 little-endian words, run 64
rounds, add back into the incoming state. -/
def md5Block (st0 : MD5State) (block : List Nat) : MD5State :=
  let M := (List.range 16).map (fun j =>
    block.getD (4 * j) 0 + 256 * block.getD (4 * j + 1) 0 +
    65536 * block.getD (4 * j + 2) 0 + 16777216 * block.getD (4 * j + 3) 0)
  let e := (List.range 64).foldl (md5Round M) st0
  ⟨(st0.a + e.a) % w32pow, (st0.b + e.b) % w32pow,
   (st0.c + e.c) % w32pow, (st0.d + e.d) % w32pow⟩

/-- Pad to 56 mod 64 with `0x80` then zeros, then the 64-bit little-endian
bit length. -/
def padMsg (msg : List Nat) : List Nat :=
  let L := msg.length
  let zeros := (55 + 64 - L % 64) % 64
  msg ++ 128 :: List.replicate zeros 0 ++
    (List.range 8).map (fun i => 8 * L % 2 ^ 64 / 2 ^ (8 * i) % 256)

def toBlocks : Nat → List Nat → List (List Nat)
  | 0, _ => []
  | k + 1, bytes => bytes.take 64 :: toBlocks k (bytes.drop 64)

def md5State (msg : List Nat) : MD5State :=
  (toBlocks ((padMsg msg).length / 64) (padMsg msg)).foldl md5Block md5Init

def hexChar (n : Nat) : Char :=
  if n < 10 then Char.ofNat (48 + n) else Char.ofNat (87 + n)

def byteHex (b : Nat) : Str := [hexChar (b / 16), hexChar (b % 16)]

def wordLEHex (w : Nat) : Str :=
  byteHex (w % 256) ++ byteHex (w / 256 % 256) ++
  byteHex (w / 65536 % 256) ++ byteHex (w / 16777216 % 256)

def hexDigest (st : MD5State) : Str :=
  wordLEHex st.a ++ wordLEHex st.b ++ wordLEHex st.c ++ wordLEHex st.d

def md5hex (msg : List Nat) : Str := hexDigest (md5State msg)

/-- The f-string `f"{book}_{chunk_id}_{text[:100]}"` of `generate_chunk_id`. -/
def chunkContent (chunk : Chunk) : Str :=
  chunk.metadata.book ++ '_' :: natRepr chunk.metadata.chunk_id ++
    '_' :: chunk.text.take 100

/-- `generate_chunk_id` (ingest.py lines 342–353). -/
def generate_chunk_id (chunk : Chunk) : Str :=
  md5hex (utf8Bytes (chunkContent chunk))

/-! ### Embedding and batch upsert

The OpenAI embedding call is the external collaborator; it is modelled as
a function `backend` that either returns a vector (of an arbitrary type
`V`) or raises (`Except.error`).  `create_embedding` (ingest.py lines
308–340) wraps it in the token-estimate truncation and the
exception-to-`None` handler; the per-batch loop of `upsert_to_pinecone`
(lines 380–398) builds the vector list, skipping passages whose embedding
failed. -/

def pyTruncateForEmbed (text : Str) : Str :=
  if 8000 < text.length / 4 then text.take (8000 * 4) else text

def create_embedding {V : Type} (backend : Str → Except Unit V) (text : Str) :
    Option V :=
  match backend (pyTruncateForEmbed text) with
  | Except.ok v => Option.some v
  | Except.error _ => Option.none

structure VectorRecord (V : Type) where
  id : Str
  values : V
  metadata : ChunkMeta
  metaText : Str
  deriving DecidableEq

def mkRecord {V : Type} (chunk : Chunk) (emb : V) : VectorRecord V :=
  ⟨generate_chunk_id chunk, emb, chunk.metadata, chunk.text.take 1000⟩

/-- The vector list built for one batch (ingest.py lines 380–398). -/
def buildVectors {V : Type} (backend : Str → Except Unit V)
    (batch : List Chunk) : List (VectorRecord V) :=
  batch.foldl (fun vecs chunk =>
    match create_embedding backend chunk.text with
    | Option.none => vecs
    | Option.some emb => vecs ++ [mkRecord chunk emb]) []

/-! ### Statement-side definitions used by the theorems -/

/-- The chunk list/counter invariant of `chunk_text`: the counter equals
the list length and every chunk's `chunk_id` is its position. -/
def IdxOk (chs : List Chunk) (cnt : Nat) : Prop :=
  cnt = chs.length ∧
  ∀ (k : Nat) (c : Chunk), chs[k]? = Option.some c → c.metadata.chunk_id = k

/-- Spec wording: the paragraph "is entirely upper-case" (Python
`str.isupper`, ASCII): it has at least one cased character and every cased
character is upper-case. -/
def UpperCaseOnly (s : Str) : Prop :=
  (∃ c ∈ s, isCasedA c = true) ∧
  ∀ c ∈ s, isCasedA c = true → ¬('a' ≤ c ∧ c ≤ 'z')

/-- Spec wording: the paragraph "starts with one or more digits followed
by `'.'`". -/
def LeadingNumberDot (s : Str) : Prop :=
  ∃ ds rest, s = ds ++ '.' :: rest ∧ ds ≠ [] ∧ ∀ c ∈ ds, isDigitC c = true

/-- The heading classification as the spec words it: shorter than 100
characters and (contains the case-insensitive substring "chapter" or
"section", or is entirely upper-case, or starts with digits then a
period). -/
def SpecHeading (s : Str) : Prop :=
  s.length < 100 ∧
    (("chapter".data <:+: s.map pyLower) ∨ ("section".data <:+: s.map pyLower) ∨
     UpperCaseOnly s ∨ LeadingNumberDot s)

/-- Decimal value of a digit string (proof-side inverse of `natRepr`). -/
def natVal (s : Str) : Nat := s.foldl (fun a c => 10 * a + (c.toNat - 48)) 0

/-! ### Normalization facts: `clean_text` output contains no newline

`re.sub(r'\s+', ' ', ·)` runs first, so every later stage sees a
newline-free string; in particular the page-number/footer substitutions
can never fire and `split('\n\n')` always yields a single paragraph. -/

theorem mem_collapseGo {c : Char} :
    ∀ (b : Bool) (s : Str), c ∈ collapseGo b s → c = ' ' ∨ isSpacePy c = false := by
  intro b s
  induction s generalizing b with
  | nil => simp [collapseGo]
  | cons a rest ih =>
    simp only [collapseGo]
    split
    · split
      · exact ih true
      · intro h
        rcases List.mem_cons.mp h with h | h
        · exact Or.inl h
        · exact ih true h
    · next hns =>
      intro h
      rcases List.mem_cons.mp h with h | h
      · subst h
        exact Or.inr (by simpa using hns)
      · exact ih false h

theorem collapseWs_no_nl (t : Str) : ∀ c ∈ collapseWs t, c ≠ '\n' := by
  intro c hc he
  rcases mem_collapseGo false t hc with h | h
  · subst he; exact absurd h (by decide)
  · subst he; exact absurd h (by decide)

theorem matchPageNum_none (s : Str) (h : ∀ c ∈ s, c ≠ '\n') :
    matchPageNum s = Option.none := by
  cases s with
  | nil => rfl
  | cons c rest =>
    have hc : c ≠ '\n' := h c (by simp)
    simp [matchPageNum, hc]

theorem matchPageFooter_none (s : Str) (h : ∀ c ∈ s, c ≠ '\n') :
    matchPageFooter s = Option.none := by
  cases s with
  | nil => rfl
  | cons c rest =>
    have hc : c ≠ '\n' := h c (by simp)
    simp [matchPageFooter, hc]

theorem subScan_id_of_none (m : Str → Option Nat) (repl : Str)
    (hm : ∀ s, (∀ c ∈ s, c ≠ '\n') → m s = Option.none) :
    ∀ (fuel : Nat) (s : Str), (∀ c ∈ s, c ≠ '\n') → subScan m repl fuel s = s := by
  intro fuel
  induction fuel with
  | zero => intro s _; rfl
  | succ fuel ih =>
    intro s h
    cases s with
    | nil => rfl
    | cons c rest =>
      have hnone : m (c :: rest) = Option.none := hm _ h
      simp only [subScan, hnone]
      exact congrArg (c :: ·) (ih rest (fun a ha => h a (List.mem_cons_of_mem _ ha)))

theorem subScan_subset (m : Str → Option Nat) :
    ∀ (fuel : Nat) (s : Str) (a : Char), a ∈ subScan m [] fuel s → a ∈ s := by
  intro fuel
  induction fuel with
  | zero => intro s a ha; exact ha
  | succ fuel ih =>
    intro s a ha
    cases s with
    | nil => simp [subScan] at ha
    | cons c rest =>
      rw [subScan] at ha
      cases hm : m (c :: rest) with
      | some k =>
        rw [hm] at ha
        simp only [List.nil_append] at ha
        exact List.drop_subset _ _ (ih _ a ha)
      | none =>
        rw [hm] at ha
        rcases List.mem_cons.mp ha with h | h
        · exact h ▸ List.mem_cons_self _ _
        · exact List.mem_cons_of_mem _ (ih rest a h)

theorem mapDq_ne_nl {b : Char} (hb : b ≠ '\n') : mapDq b ≠ '\n' := by
  unfold mapDq
  split
  · decide
  · exact hb

theorem mapSq_ne_nl {b : Char} (hb : b ≠ '\n') : mapSq b ≠ '\n' := by
  unfold mapSq
  split
  · decide
  · exact hb

theorem mapDash_ne_nl {b : Char} (hb : b ≠ '\n') : mapDash b ≠ '\n' := by
  unfold mapDash
  split
  · decide
  · exact hb

theorem strip_subset (s : Str) : ∀ a ∈ strip s, a ∈ s := by
  intro a ha
  unfold strip at ha
  rw [List.mem_reverse] at ha
  have h1 := (List.dropWhile_suffix isSpacePy).subset ha
  rw [List.mem_reverse] at h1
  exact (List.dropWhile_suffix isSpacePy).subset h1

theorem clean_text_no_nl (t : Str) : ∀ c ∈ clean_text t, c ≠ '\n' := by
  have h0 := collapseWs_no_nl t
  have h1 : pySubPageNum (collapseWs t) = collapseWs t :=
    subScan_id_of_none _ _ matchPageNum_none _ _ h0
  have h2 : pySubFooter (collapseWs t) = collapseWs t :=
    subScan_id_of_none _ _ matchPageFooter_none _ _ h0
  have h3 : ∀ c ∈ pySubUrl (collapseWs t), c ≠ '\n' := by
    intro c hc
    exact h0 c (subScan_subset matchUrl _ _ c hc)
  have h4 : ∀ c ∈ pySubEmail (pySubUrl (collapseWs t)), c ≠ '\n' := by
    intro c hc
    exact h3 c (subScan_subset matchEmail _ _ c hc)
  intro c hc
  unfold clean_text at hc
  rw [h1, h2] at hc
  have h5 := strip_subset _ c hc
  rcases List.mem_map.mp h5 with ⟨b2, hb2, he2⟩
  rcases List.mem_map.mp hb2 with ⟨b1, hb1, he1⟩
  rcases List.mem_map.mp hb1 with ⟨b0, hb0, he0⟩
  subst he2 he1 he0
  exact mapDash_ne_nl (mapSq_ne_nl (mapDq_ne_nl (h4 b0 hb0)))

theorem splitOnParaGo_no_nl :
    ∀ (acc s : Str), (∀ c ∈ s, c ≠ '\n') → splitOnParaGo acc s = [acc.reverse ++ s] := by
  intro acc s
  induction acc, s using splitOnParaGo.induct with
  | case1 acc => simp [splitOnParaGo]
  | case2 acc c => simp [splitOnParaGo]
  | case3 acc c1 c2 rest hcond ih =>
    intro h
    exact absurd ((h c1 (by simp))) (by
      rcases Bool.and_eq_true_iff.mp hcond with ⟨hc1, _⟩
      exact fun hne => hne (by exact_mod_cast (beq_iff_eq ..).mp hc1))
  | case4 acc c1 c2 rest hcond ih =>
    intro h
    rw [splitOnParaGo]
    rw [if_neg (by simp [hcond])]
    rw [ih (fun a ha => h a (List.mem_cons_of_mem _ ha))]
    simp

theorem splitOnPara_clean (t : Str) : splitOnPara (clean_text t) = [clean_text t] := by
  have := splitOnParaGo_no_nl [] (clean_text t) (clean_text_no_nl t)
  simpa [splitOnPara] using this

/-- C1 (code bug evaluation): `clean_text` does **not** preserve the
`"\n\n"` paragraph separator — the initial `re.sub(r'\s+', ' ', ·)`
collapses it to a single space, so the downstream split on `"\n\n"`
returns the whole text as one paragraph instead of the original two. -/
theorem clean_text_destroys_para_separator :
    clean_text ("a\n\nb".data) = "a b".data ∧
    splitOnPara (clean_text ("a\n\nb".data)) = ["a b".data] := by
  constructor <;> decide

/-- C8 (code bug evaluation): bare page-number lines and `"Page N"` footer
lines survive `clean_text`: whitespace collapsing runs first, so the
patterns `r'\n\d+\s*\n'` and `r'\n\s*Page \d+\s*\n'` never match. -/
theorem clean_text_retains_page_patterns :
    clean_text ("a\nPage 5\nb".data) = "a Page 5 b".data ∧
    clean_text ("a\n12\nb".data) = "a 12 b".data := by
  constructor <;> decide

/-- C10: an input whose cleaned form is empty produces no passages: the
single empty paragraph is skipped, the trailing flush does not fire, and
the fallback size condition `len > 2 * CHUNK_SIZE` fails. -/
theorem chunk_text_empty_clean (text book : Str) (h : clean_text text = []) :
    chunk_text text book = [] := by
  have hp : paraChunks text book = [] := by
    unfold paraChunks
    rw [h]
    rfl
  unfold chunk_text
  rw [hp, h]
  simp [CHUNK_SIZE]

/-- Witness for C10 at the all-whitespace input `"  \n "`. -/
theorem chunk_text_empty_clean_witness :
    chunk_text ("  \n ".data) ("Book".data) = [] :=
  chunk_text_empty_clean ("  \n ".data) ("Book".data) (by decide)

/-- From the empty initial accumulator, one paragraph step never emits a
chunk: both the heading flush and the size-limit flush require
`MIN_CHUNK_SIZE ≤ 0`. -/
theorem processParagraph_init_chunks (book p : Str) :
    (processParagraph book initState p).chunks = [] := by
  unfold processParagraph initState
  norm_num [MIN_CHUNK_SIZE]
  split_ifs <;> rfl

/-- C3: every passage emitted by the paragraph-based pass has text length
at least `MIN_CHUNK_SIZE`.  Because normalization leaves a single
paragraph, the heading flush and the size-limit flush (which test the
unstripped accumulator) never fire from the empty initial accumulator, and
the trailing flush tests the stripped length itself. -/
theorem paraChunks_min_size (text book : Str) :
    ∀ c ∈ paraChunks text book, MIN_CHUNK_SIZE ≤ c.text.length := by
  intro c hc
  unfold paraChunks at hc
  rw [splitOnPara_clean] at hc
  simp only [List.foldl_cons, List.foldl_nil] at hc
  have h1 := processParagraph_init_chunks book (clean_text text)
  unfold finalFlush at hc
  split at hc
  · next hlen =>
    rw [h1] at hc
    simp only [List.nil_append] at hc
    rcases List.mem_cons.mp hc with h | h
    · subst h
      simpa [flushChunk] using hlen
    · simp at h
  · rw [h1] at hc
    simp at hc

set_option maxRecDepth 4000 in
/-- Witness for C3: a 301-character cleaned text yields one paragraph-path
passage, of length 301 ≥ `MIN_CHUNK_SIZE`. -/
theorem paraChunks_min_size_witness :
    MIN_CHUNK_SIZE ≤
      (Chunk.mk (List.replicate 301 'b')
        ⟨"B".data, "Introduction".data, [], 0⟩).text.length :=
  paraChunks_min_size (List.replicate 301 'b') ("B".data) _ (by decide)

/-! ### C6: chunk ids are list positions -/

theorem IdxOk_append {chs : List Chunk} {cnt : Nat} (h : IdxOk chs cnt)
    (c : Chunk) (hc : c.metadata.chunk_id = cnt) : IdxOk (chs ++ [c]) (cnt + 1) := by
  obtain ⟨hlen, hids⟩ := h
  constructor
  · simp [hlen]
  · intro k ce hke
    by_cases hlt : k < chs.length
    · rw [List.getElem?_append_left hlt] at hke
      exact hids k ce hke
    · rw [List.getElem?_append_right (Nat.le_of_not_lt hlt)] at hke
      rcases hd : k - chs.length with _ | n
      · rw [hd] at hke
        simp only [List.getElem?_cons_zero, Option.some.injEq] at hke
        subst hke
        rw [hc, hlen]
        omega
      · rw [hd] at hke
        simp at hke

theorem processParagraph_IdxOk (book : Str) (st : LoopState) (p : Str)
    (h : IdxOk st.chunks st.chunk_count) :
    IdxOk (processParagraph book st p).chunks (processParagraph book st p).chunk_count := by
  unfold processParagraph
  dsimp only
  split_ifs <;> first
    | exact h
    | exact IdxOk_append h (flushChunk book st) rfl

theorem foldl_processParagraph_IdxOk (book : Str) :
    ∀ (ps : List Str) (st : LoopState), IdxOk st.chunks st.chunk_count →
      IdxOk (ps.foldl (processParagraph book) st).chunks
        (ps.foldl (processParagraph book) st).chunk_count := by
  intro ps
  induction ps with
  | nil => intro st h; exact h
  | cons p rest ih =>
    intro st h
    exact ih _ (processParagraph_IdxOk book st p h)

theorem finalFlush_ids (book : Str) (st : LoopState)
    (h : IdxOk st.chunks st.chunk_count) :
    ∀ (k : Nat) (c : Chunk), (finalFlush book st)[k]? = Option.some c →
      c.metadata.chunk_id = k := by
  unfold finalFlush
  split
  · exact (IdxOk_append h _ rfl).2
  · exact h.2

theorem fallback_foldl_IdxOk (clean book : Str) :
    ∀ (idxs : List Nat) (acc : List Chunk × Nat), IdxOk acc.1 acc.2 →
      IdxOk (idxs.foldl (fallbackStep clean book) acc).1
        (idxs.foldl (fallbackStep clean book) acc).2 := by
  intro idxs
  induction idxs with
  | nil => intro acc h; exact h
  | cons i rest ih =>
    intro acc h
    refine ih _ ?_
    unfold fallbackStep
    dsimp only
    split
    · exact IdxOk_append h _ rfl
    · exact h

theorem fallbackPass_ids (clean book : Str) :
    ∀ (k : Nat) (c : Chunk), (fallbackPass clean book)[k]? = Option.some c →
      c.metadata.chunk_id = k := by
  unfold fallbackPass
  exact (fallback_foldl_IdxOk clean book (fallbackIndices clean.length) ([], 0)
    ⟨rfl, fun k c hk => by simp at hk⟩).2

theorem paraChunks_ids (text book : Str) :
    ∀ (k : Nat) (c : Chunk), (paraChunks text book)[k]? = Option.some c →
      c.metadata.chunk_id = k := by
  unfold paraChunks
  exact finalFlush_ids book _
    (foldl_processParagraph_IdxOk book _ initState
      ⟨rfl, fun k c hk => by simp [initState] at hk⟩)

/-- C6: the passage found at (zero-based) position `k` of the list
returned by `chunk_text` has `chunk_id` metadata equal to `k` — ids are
strictly increasing with no gaps, in both the paragraph-based path and the
fallback path. -/
theorem chunk_text_ids_are_positions (text book : Str) :
    ∀ (k : Nat) (c : Chunk), (chunk_text text book)[k]? = Option.some c →
      c.metadata.chunk_id = k := by
  by_cases hcond : (paraChunks text book).length < 5 ∧
      CHUNK_SIZE * 2 < (clean_text text).length
  · have he : chunk_text text book = fallbackPass (clean_text text) book := by
      unfold chunk_text
      rw [if_pos hcond]
    rw [he]
    exact fallbackPass_ids _ _
  · have he : chunk_text text book = paraChunks text book := by
      unfold chunk_text
      rw [if_neg hcond]
    rw [he]
    exact paraChunks_ids _ _

set_option maxRecDepth 4000 in
/-- Witness for C6: a 300-character input yields one passage, whose
`chunk_id` is `0`. -/
theorem chunk_text_ids_are_positions_witness :
    (Chunk.mk (List.replicate 300 'a')
        ⟨"A".data, "Introduction".data, [], 0⟩).metadata.chunk_id = 0 :=
  chunk_text_ids_are_positions (List.replicate 300 'a') ("A".data) 0
    (Chunk.mk (List.replicate 300 'a') ⟨"A".data, "Introduction".data, [], 0⟩)
    (by decide)

/-! ### C2: the character-stride fallback -/

theorem fallback_fold_texts (clean book : Str) :
    ∀ (idxs : List Nat) (acc : List Chunk × Nat),
      ((idxs.foldl (fallbackStep clean book) acc).1).map Chunk.text =
        acc.1.map Chunk.text ++
          (idxs.map (fun i => (clean.drop i).take CHUNK_SIZE)).filter
            (fun w => decide (MIN_CHUNK_SIZE ≤ w.length)) := by
  intro idxs
  induction idxs with
  | nil => intro acc; simp
  | cons i rest ih =>
    intro acc
    rw [List.foldl_cons, List.map_cons, List.filter_cons]
    by_cases hw : MIN_CHUNK_SIZE ≤ ((clean.drop i).take CHUNK_SIZE).length
    · have hstep : fallbackStep clean book acc i =
          (acc.1 ++ [⟨(clean.drop i).take CHUNK_SIZE,
            ⟨book, "Section ".data ++ natRepr (acc.2 / 10 + 1),
             "Part ".data ++ natRepr (acc.2 % 10 + 1), acc.2⟩⟩], acc.2 + 1) := by
        unfold fallbackStep
        dsimp only
        rw [if_pos hw]
      rw [hstep, ih,
        if_pos (show decide (MIN_CHUNK_SIZE ≤ ((clean.drop i).take CHUNK_SIZE).length) = true
          from by simpa using hw)]
      simp
    · have hstep : fallbackStep clean book acc i = acc := by
        unfold fallbackStep
        dsimp only
        rw [if_neg hw]
      rw [hstep, ih,
        if_neg (show ¬decide (MIN_CHUNK_SIZE ≤ ((clean.drop i).take CHUNK_SIZE).length) = true
          from by simpa using hw)]

theorem fallbackPass_texts (clean book : Str) :
    (fallbackPass clean book).map Chunk.text =
      (fallbackWindows clean).filter (fun w => decide (MIN_CHUNK_SIZE ≤ w.length)) := by
  unfold fallbackPass fallbackWindows
  rw [fallback_fold_texts]
  simp

theorem fallbackPass_text_bounds (clean book : Str) :
    ∀ w ∈ (fallbackPass clean book).map Chunk.text,
      MIN_CHUNK_SIZE ≤ w.length ∧ w.length ≤ CHUNK_SIZE := by
  intro w hw
  rw [fallbackPass_texts] at hw
  have hmem := List.mem_filter.mp hw
  refine ⟨by simp at hmem; exact hmem.2, ?_⟩
  rcases List.mem_map.mp hmem.1 with ⟨i, _, rfl⟩
  exact List.length_take_le ..

/-- Window lengths decrease with the stride: once a window is shorter than
`CHUNK_SIZE`, every later window is even shorter than `MIN_CHUNK_SIZE`
(the stride 800 exceeds the gap `CHUNK_SIZE - MIN_CHUNK_SIZE = 700`). -/
theorem fallbackWindows_pairwise (clean : Str) :
    (fallbackWindows clean).Pairwise
      (fun w w' => w.length < CHUNK_SIZE → w'.length < MIN_CHUNK_SIZE) := by
  unfold fallbackWindows fallbackIndices
  rw [List.pairwise_map, List.pairwise_map]
  refine (List.pairwise_lt_range _).imp ?_
  intro a b hab hlt
  rw [List.length_take, List.length_drop] at hlt ⊢
  rw [min_lt_iff] at hlt ⊢
  have hmul : (a + 1) * (CHUNK_SIZE - CHUNK_OVERLAP) ≤ b * (CHUNK_SIZE - CHUNK_OVERLAP) :=
    Nat.mul_le_mul_right _ (Nat.succ_le_of_lt hab)
  rcases hlt with h | h
  · exact absurd h (by simp)
  · right
    simp only [CHUNK_SIZE, CHUNK_OVERLAP, MIN_CHUNK_SIZE] at *
    omega

theorem fallback_nonlast_full (clean book : Str) :
    ∀ (i : Nat) (w w' : Str),
      ((fallbackPass clean book).map Chunk.text)[i]? = Option.some w →
      ((fallbackPass clean book).map Chunk.text)[i + 1]? = Option.some w' →
      w.length = CHUNK_SIZE := by
  intro i w w' hw hw'
  have hub : w.length ≤ CHUNK_SIZE :=
    (fallbackPass_text_bounds clean book w (List.getElem?_mem hw)).2
  rw [fallbackPass_texts] at hw hw'
  set l := (fallbackWindows clean).filter
    (fun w => decide (MIN_CHUNK_SIZE ≤ w.length)) with hl
  have hpw : l.Pairwise (fun w w' => w.length < CHUNK_SIZE → w'.length < MIN_CHUNK_SIZE) :=
    ((fallbackWindows_pairwise clean).sublist (List.filter_sublist _)).imp (fun h => h)
  rcases List.getElem?_eq_some.mp hw with ⟨hi, he⟩
  rcases List.getElem?_eq_some.mp hw' with ⟨hi', he'⟩
  have hR := (List.pairwise_iff_getElem.mp hpw) i (i + 1) hi hi' (Nat.lt_succ_self i)
  rw [he, he'] at hR
  have hmin : MIN_CHUNK_SIZE ≤ w'.length := by
    have := List.mem_filter.mp (he' ▸ List.getElem_mem hi')
    simpa using this.2
  by_contra hne
  exact absurd (hR (Nat.lt_of_le_of_ne hub hne)) (Nat.not_lt.mpr hmin)

/-- C2: `chunk_text` enters fallback mode exactly when the paragraph pass
produced fewer than 5 passages and the cleaned text is longer than
`2 * CHUNK_SIZE` (discarding the paragraph passages); the fallback
passages are the windows `clean[i : i + CHUNK_SIZE]` for
`i = 0, 800, 1600, …` with windows shorter than `MIN_CHUNK_SIZE` dropped,
each emitted window is between `MIN_CHUNK_SIZE` and `CHUNK_SIZE` long, and
every emitted window except possibly the last has exactly `CHUNK_SIZE`
characters. -/
theorem chunk_text_fallback_characterization :
    (∀ text book : Str, chunk_text text book =
      if (paraChunks text book).length < 5 ∧ CHUNK_SIZE * 2 < (clean_text text).length
      then fallbackPass (clean_text text) book
      else paraChunks text book) ∧
    (∀ clean book : Str, (fallbackPass clean book).map Chunk.text =
      (fallbackWindows clean).filter (fun w => decide (MIN_CHUNK_SIZE ≤ w.length))) ∧
    (∀ (clean book : Str), ∀ w ∈ (fallbackPass clean book).map Chunk.text,
      MIN_CHUNK_SIZE ≤ w.length ∧ w.length ≤ CHUNK_SIZE) ∧
    (∀ (clean book : Str) (i : Nat) (w w' : Str),
      ((fallbackPass clean book).map Chunk.text)[i]? = Option.some w →
      ((fallbackPass clean book).map Chunk.text)[i + 1]? = Option.some w' →
      w.length = CHUNK_SIZE) :=
  ⟨fun _ _ => rfl, fallbackPass_texts, fallbackPass_text_bounds, fallback_nonlast_full⟩

set_option maxRecDepth 6000 in
/-- Witness for C2: on an 1100-character cleaned text the fallback emits
windows of lengths 1000 and 300; the first (non-last) window has exactly
`CHUNK_SIZE` characters. -/
theorem chunk_text_fallback_characterization_witness :
    (List.replicate 1000 'a' : Str).length = CHUNK_SIZE :=
  chunk_text_fallback_characterization.2.2.2 (List.replicate 1100 'a') ("F".data) 0
    (List.replicate 1000 'a') (List.replicate 300 'a') (by decide) (by decide)

/-! ### C4: heading classification and its effect -/

theorem containsSub_iff (pat : Str) : ∀ s : Str, containsSub pat s = true ↔ pat <:+: s := by
  intro s
  induction s with
  | nil =>
    simp only [containsSub, List.isEmpty_iff]
    constructor
    · intro h
      exact h ▸ List.infix_rfl
    · intro h
      simpa using h.sublist.length_le
  | cons c rest ih =>
    simp only [containsSub, Bool.or_eq_true]
    rw [ih]
    constructor
    · rintro (h | h)
      · have hp := List.isPrefixOf_iff_prefix.mp h
        exact hp.isInfix
      · exact h.trans (List.suffix_cons c rest).isInfix
    · intro h
      rcases List.infix_cons_iff.mp h with h | h
      · have hp := List.isPrefixOf_iff_prefix.mpr h
        exact Or.inl hp
      · exact Or.inr h

theorem upper_char_iff (c : Char) :
    (!('a' ≤ c && c ≤ 'z')) = true ↔ ¬('a' ≤ c ∧ c ≤ 'z') := by
  rw [Bool.not_eq_true', Bool.and_eq_false_iff, decide_eq_false_iff_not,
    decide_eq_false_iff_not, not_and_or]

theorem pyIsUpper_iff (s : Str) : pyIsUpper s = true ↔ UpperCaseOnly s := by
  unfold pyIsUpper UpperCaseOnly
  rw [Bool.and_eq_true, List.any_eq_true, List.all_eq_true]
  refine and_congr Iff.rfl ?_
  constructor
  · intro hall c hc _
    exact (upper_char_iff c).mp (hall c hc)
  · intro hall c hc
    rw [upper_char_iff c]
    intro hl
    refine (hall c hc ?_) hl
    unfold isCasedA
    rw [Bool.or_eq_true, Bool.and_eq_true]
    exact Or.inl ⟨decide_eq_true hl.1, decide_eq_true hl.2⟩

theorem takeWhile_append_sep {p : Char → Bool} :
    ∀ (ds : Str) (x : Char) (r : Str), (∀ c ∈ ds, p c = true) → p x = false →
      ((ds ++ x :: r).takeWhile p) = ds := by
  intro ds
  induction ds with
  | nil =>
    intro x r _ hx
    simp [List.takeWhile_cons, hx]
  | cons d ds ih =>
    intro x r hall hx
    have hd : p d = true := hall d (by simp)
    rw [List.cons_append, List.takeWhile_cons]
    rw [hd]
    rw [if_pos rfl, ih x r (fun c hc => hall c (by simp [hc])) hx]

theorem startsDigitsDot_iff (s : Str) : startsDigitsDot s = true ↔ LeadingNumberDot s := by
  unfold startsDigitsDot LeadingNumberDot
  have hsplit : s.drop (s.takeWhile isDigitC).length = s.dropWhile isDigitC := by
    nth_rewrite 2 [(List.takeWhile_append_dropWhile isDigitC s).symm]
    rw [List.drop_left]
  constructor
  · intro h
    rw [Bool.and_eq_true] at h
    obtain ⟨hne, hdot⟩ := h
    rcases hd : s.dropWhile isDigitC with _ | ⟨a, t⟩
    · rw [hsplit, hd] at hdot
      simp at hdot
    · rw [hsplit, hd] at hdot
      simp only [List.head?_cons, beq_iff_eq, Option.some.injEq] at hdot
      subst hdot
      refine ⟨s.takeWhile isDigitC, t, ?_, by simpa using hne,
        fun c hc => List.mem_takeWhile_imp hc⟩
      rw [← hd, List.takeWhile_append_dropWhile]
  · rintro ⟨ds, rest, rfl, hne, hdig⟩
    have ht : ((ds ++ '.' :: rest).takeWhile isDigitC) = ds :=
      takeWhile_append_sep ds '.' rest hdig (by decide)
    rw [Bool.and_eq_true, ht]
    refine ⟨by simpa using hne, ?_⟩
    rw [List.drop_left]
    simp

theorem headingCond_iff_SpecHeading (q : Str) : headingCond q = true ↔ SpecHeading q := by
  unfold headingCond SpecHeading
  rw [Bool.and_eq_true, Bool.or_eq_true, Bool.or_eq_true, Bool.or_eq_true]
  rw [decide_eq_true_iff, containsSub_iff, containsSub_iff, pyIsUpper_iff,
    startsDigitsDot_iff, or_assoc, or_assoc]

/-- C4: a stripped, non-empty paragraph is classified as a heading exactly
under the spec's condition (shorter than 100 characters and: contains
"chapter"/"section" case-insensitively, or is entirely upper-case, or
starts with digits followed by `'.'`); on a heading the paragraph is never
appended to the accumulator or to any passage (the accumulator is only
flushed or kept), and the heading becomes the chapter label if it contains
"chapter" (case-insensitively), otherwise the section label. -/
theorem heading_classification_and_effect (book : Str) (st : LoopState) (p : Str)
    (hq : strip p ≠ []) :
    (headingCond (strip p) = true ↔ SpecHeading (strip p)) ∧
    (headingCond (strip p) = true →
      (processParagraph book st p).current_chunk =
        (if MIN_CHUNK_SIZE ≤ st.current_chunk.length then [] else st.current_chunk) ∧
      (processParagraph book st p).chunks =
        (if MIN_CHUNK_SIZE ≤ st.current_chunk.length
         then st.chunks ++ [flushChunk book st] else st.chunks) ∧
      (processParagraph book st p).current_chapter =
        (if containsSub ("chapter".data) ((strip p).map pyLower) = true then strip p
         else st.current_chapter) ∧
      (processParagraph book st p).current_section =
        (if containsSub ("chapter".data) ((strip p).map pyLower) = true then []
         else strip p)) := by
  refine ⟨headingCond_iff_SpecHeading _, ?_⟩
  intro hh
  unfold processParagraph
  dsimp only
  rw [if_neg hq, if_pos hh]
  by_cases hmin : MIN_CHUNK_SIZE ≤ st.current_chunk.length <;>
    by_cases hch : containsSub ("chapter".data) ((strip p).map pyLower) = true <;>
      simp [hmin, hch]

/-- Witness for C4 at the heading paragraph `"Chapter 1"` and the initial
state. -/
theorem heading_classification_and_effect_witness :
    SpecHeading ("Chapter 1".data) ∧
    (processParagraph ("B".data) initState ("Chapter 1".data)).current_chapter =
      (if containsSub ("chapter".data) ((strip ("Chapter 1".data)).map pyLower) = true
       then strip ("Chapter 1".data) else initState.current_chapter) :=
  ⟨(heading_classification_and_effect ("B".data) initState ("Chapter 1".data)
      (by decide)).1.mp (by decide),
   ((heading_classification_and_effect ("B".data) initState ("Chapter 1".data)
      (by decide)).2 (by decide)).2.2.1⟩

/-! ### C5: the size test, flush-with-overlap, and the soft ceiling -/

set_option maxRecDepth 12000 in
/-- C5: when a non-heading paragraph would push the accumulator past
`CHUNK_SIZE` (counting the 2-character separator): if the accumulator has
reached `MIN_CHUNK_SIZE` it is flushed and the next accumulator is seeded
with the last 30 whitespace-separated words of the flushed accumulator
followed by the new paragraph; otherwise the paragraph is appended anyway,
so a paragraph-path passage may exceed `CHUNK_SIZE` (third conjunct: a
concrete non-fallback input whose single passage is 1001 characters
long). -/
theorem size_flush_behaviour :
    (∀ (book : Str) (st : LoopState) (p : Str), strip p ≠ [] →
      headingCond (strip p) = false →
      CHUNK_SIZE < st.current_chunk.length + (strip p).length + 2 →
      (MIN_CHUNK_SIZE ≤ st.current_chunk.length →
        (processParagraph book st p).chunks = st.chunks ++ [flushChunk book st] ∧
        (processParagraph book st p).current_chunk =
          List.intercalate [' '] (lastN 30 (pySplit st.current_chunk)) ++
            nl2 ++ strip p ++ nl2 ∧
        (processParagraph book st p).chunk_count = st.chunk_count + 1) ∧
      (st.current_chunk.length < MIN_CHUNK_SIZE →
        (processParagraph book st p).chunks = st.chunks ∧
        (processParagraph book st p).current_chunk =
          st.current_chunk ++ strip p ++ nl2 ∧
        (processParagraph book st p).chunk_count = st.chunk_count)) ∧
    (∃ text book : Str, chunk_text text book = paraChunks text book ∧
      ∃ c ∈ paraChunks text book, CHUNK_SIZE < c.text.length) := by
  constructor
  · intro book st p hq hh hsize
    have hstep : processParagraph book st p =
        if MIN_CHUNK_SIZE ≤ st.current_chunk.length then
          { chunks := st.chunks ++ [flushChunk book st],
            current_chunk :=
              List.intercalate [' '] (lastN 30 (pySplit st.current_chunk)) ++
                nl2 ++ strip p ++ nl2,
            current_chapter := st.current_chapter,
            current_section := st.current_section,
            chunk_count := st.chunk_count + 1 }
        else { st with current_chunk := st.current_chunk ++ strip p ++ nl2 } := by
      unfold processParagraph
      dsimp only
      rw [if_neg hq, if_neg (by simp [hh]), if_pos hsize]
    constructor
    · intro hmin
      rw [hstep, if_pos hmin]
      exact ⟨rfl, rfl, rfl⟩
    · intro hmin
      rw [hstep, if_neg (Nat.not_le_of_lt hmin)]
      exact ⟨rfl, rfl, rfl⟩
  · refine ⟨(List.replicate 334 (' ' :: 'a' :: 'b' :: [])).flatten, "E".data,
      by decide, ⟨clean_text ((List.replicate 334 (' ' :: 'a' :: 'b' :: [])).flatten),
        ⟨"E".data, "Introduction".data, [], 0⟩⟩, by decide, by decide⟩

set_option maxRecDepth 4000 in
/-- Witness for C5: a 500-character accumulator and a 600-character
paragraph trigger the flush branch; the counter advances by one. -/
theorem size_flush_behaviour_witness :
    (processParagraph ("W".data)
        ⟨[], List.replicate 500 'x', "Introduction".data, [], 0⟩
        (List.replicate 600 'y')).chunk_count = 0 + 1 :=
  ((size_flush_behaviour.1 ("W".data)
      ⟨[], List.replicate 500 'x', "Introduction".data, [], 0⟩
      (List.replicate 600 'y') (by decide) (by decide) (by decide)).1 (by decide)).2.2

/-! ### C7: chunk identity -/

theorem digitChar_toNat {m : Nat} (h : m < 10) : (digitChar m).toNat = 48 + m := by
  interval_cases m <;> decide

theorem digitChar_digit {m : Nat} (h : m < 10) : isDigitC (digitChar m) = true := by
  interval_cases m <;> decide

theorem natDigitsGo_spec : ∀ (fuel n : Nat), n < fuel →
    natVal (natDigitsGo fuel n) = n ∧ natDigitsGo fuel n ≠ [] ∧
    ∀ c ∈ natDigitsGo fuel n, isDigitC c = true := by
  intro fuel
  induction fuel with
  | zero => intro n h; exact absurd h (Nat.not_lt_zero n)
  | succ fuel ih =>
    intro n h
    rw [natDigitsGo]
    by_cases h10 : n < 10
    · rw [if_pos h10]
      refine ⟨?_, by simp, ?_⟩
      · unfold natVal
        simp only [List.foldl_cons, List.foldl_nil]
        rw [digitChar_toNat h10]
        omega
      · intro c hc
        rw [List.mem_singleton] at hc
        subst hc
        exact digitChar_digit h10
    · rw [if_neg h10]
      have hdiv : n / 10 < fuel := by omega
      obtain ⟨hval, _, hdig⟩ := ih (n / 10) hdiv
      have hmod : n % 10 < 10 := Nat.mod_lt _ (by norm_num)
      refine ⟨?_, by simp, ?_⟩
      · unfold natVal at hval ⊢
        rw [List.foldl_append]
        simp only [List.foldl_cons, List.foldl_nil]
        rw [hval, digitChar_toNat hmod]
        omega
      · intro c hc
        rcases List.mem_append.mp hc with hc | hc
        · exact hdig c hc
        · rw [List.mem_singleton] at hc
          subst hc
          exact digitChar_digit hmod

theorem natVal_natRepr (n : Nat) : natVal (natRepr n) = n :=
  (natDigitsGo_spec (n + 1) n (Nat.lt_succ_self n)).1

theorem natRepr_inj {m n : Nat} (h : natRepr m = natRepr n) : m = n := by
  have hm := natVal_natRepr m
  rw [h, natVal_natRepr] at hm
  exact hm.symm

theorem natRepr_no_underscore (n : Nat) : ∀ c ∈ natRepr n, c ≠ '_' := by
  intro c hc he
  have := (natDigitsGo_spec (n + 1) n (Nat.lt_succ_self n)).2.2 c hc
  rw [he] at this
  exact absurd this (by decide)

theorem append_sep_inj {sep : Char} :
    ∀ (l1 l2 r1 r2 : Str), (∀ c ∈ l1, c ≠ sep) → (∀ c ∈ l2, c ≠ sep) →
      l1 ++ sep :: r1 = l2 ++ sep :: r2 → l1 = l2 ∧ r1 = r2 := by
  intro l1
  induction l1 with
  | nil =>
    intro l2 r1 r2 _ h2 he
    cases l2 with
    | nil => simpa using he
    | cons d l2 =>
      simp only [List.nil_append, List.cons_append, List.cons.injEq] at he
      exact absurd he.1.symm (h2 d (by simp))
  | cons c l1 ih =>
    intro l2 r1 r2 h1 h2 he
    cases l2 with
    | nil =>
      simp only [List.cons_append, List.nil_append, List.cons.injEq] at he
      exact absurd he.1 (h1 c (by simp))
    | cons d l2 =>
      simp only [List.cons_append, List.cons.injEq] at he
      obtain ⟨hcd, he⟩ := he
      obtain ⟨hl, hr⟩ := ih l2 r1 r2 (fun a ha => h1 a (by simp [ha]))
        (fun a ha => h2 a (by simp [ha])) he
      exact ⟨by rw [hcd, hl], hr⟩

/-- C7 (amended): `generate_chunk_id` depends only on the triple
`(book, chunk_id, text[:100])` — two passages agreeing on the triple get
the same id even if their texts differ beyond character 100 — and the
hash **input** is injective in `(chunk_id, text[:100])` for a fixed book,
so distinct positions or leading texts produce distinct ids whenever the
underlying MD5 digests do not collide (they must collide somewhere: see
the pigeonhole counterexample). -/
theorem chunk_id_content_determinism :
    (∀ (b ch se : Str) (cid : Nat) (t1 t2 : Str), t1.take 100 = t2.take 100 →
      generate_chunk_id ⟨t1, ⟨b, ch, se, cid⟩⟩ =
        generate_chunk_id ⟨t2, ⟨b, ch, se, cid⟩⟩) ∧
    (∀ (b ch1 se1 ch2 se2 : Str) (c1 c2 : Nat) (t1 t2 : Str),
      chunkContent ⟨t1, ⟨b, ch1, se1, c1⟩⟩ = chunkContent ⟨t2, ⟨b, ch2, se2, c2⟩⟩ →
      c1 = c2 ∧ t1.take 100 = t2.take 100) := by
  constructor
  · intro b ch se cid t1 t2 h
    unfold generate_chunk_id chunkContent
    dsimp only
    rw [h]
  · intro b ch1 se1 ch2 se2 c1 c2 t1 t2 h
    unfold chunkContent at h
    dsimp only at h
    rw [List.append_assoc, List.append_assoc] at h
    have h1 := List.append_cancel_left h
    simp only [List.cons_append, List.cons.injEq, true_and] at h1
    obtain ⟨hl, hr⟩ := append_sep_inj (natRepr c1) (natRepr c2) _ _
      (natRepr_no_underscore c1) (natRepr_no_underscore c2) h1
    exact ⟨natRepr_inj hl, hr⟩

/-- Witness for C7: two passages whose texts agree on the first 100
characters but differ at character 101 receive the same id. -/
theorem chunk_id_content_determinism_witness :
    generate_chunk_id ⟨List.replicate 100 'a' ++ ['b'], ⟨"B".data, [], [], 3⟩⟩ =
      generate_chunk_id ⟨List.replicate 100 'a' ++ ['c'], ⟨"B".data, [], [], 3⟩⟩ ∧
    (3 : Nat) = 3 ∧ ("xy".data : Str).take 100 = "xy".data :=
  ⟨chunk_id_content_determinism.1 ("B".data) [] [] 3 _ _ (by decide),
   (chunk_id_content_determinism.2 ("B".data) [] [] [] [] 3 3 "xy".data "xy".data
      rfl).1,
   (chunk_id_content_determinism.2 ("B".data) [] [] [] [] 3 3 "xy".data "xy".data
      rfl).2⟩

theorem md5State_lt (msg : List Nat) :
    (md5State msg).a < w32pow ∧ (md5State msg).b < w32pow ∧
    (md5State msg).c < w32pow ∧ (md5State msg).d < w32pow := by
  unfold md5State
  generalize toBlocks ((padMsg msg).length / 64) (padMsg msg) = blocks
  suffices h : ∀ (bl : List (List Nat)) (st : MD5State),
      st.a < w32pow ∧ st.b < w32pow ∧ st.c < w32pow ∧ st.d < w32pow →
      (bl.foldl md5Block st).a < w32pow ∧ (bl.foldl md5Block st).b < w32pow ∧
      (bl.foldl md5Block st).c < w32pow ∧ (bl.foldl md5Block st).d < w32pow by
    exact h blocks md5Init (by decide)
  intro bl
  induction bl with
  | nil => intro st h; exact h
  | cons blk rest ih =>
    intro st h
    refine ih _ ?_
    unfold md5Block
    dsimp only
    have hpos : 0 < w32pow := by decide
    exact ⟨Nat.mod_lt _ hpos, Nat.mod_lt _ hpos, Nat.mod_lt _ hpos, Nat.mod_lt _ hpos⟩

/-- C7 counterexample (to the claim as stated): `generate_chunk_id` maps
into the finite set of MD5 digests, so by the pigeonhole principle two
passages with the same book and text but **different** `chunk_id`s receive
the same id — a change of position does not always change the id. -/
theorem chunk_id_not_injective :
    ∃ c1 c2 : Nat, c1 ≠ c2 ∧
      generate_chunk_id ⟨"x".data, ⟨"book".data, "ch".data, "se".data, c1⟩⟩ =
        generate_chunk_id ⟨"x".data, ⟨"book".data, "ch".data, "se".data, c2⟩⟩ := by
  have hlt := md5State_lt
  obtain ⟨c1, c2, hne, heq⟩ := Finite.exists_ne_map_eq_of_infinite
    (fun cid : Nat =>
      ((⟨(md5State (utf8Bytes (chunkContent
            ⟨"x".data, ⟨"book".data, "ch".data, "se".data, cid⟩⟩))).a,
          (hlt _).1⟩ : Fin w32pow),
       (⟨(md5State (utf8Bytes (chunkContent
            ⟨"x".data, ⟨"book".data, "ch".data, "se".data, cid⟩⟩))).b,
          (hlt _).2.1⟩ : Fin w32pow),
       (⟨(md5State (utf8Bytes (chunkContent
            ⟨"x".data, ⟨"book".data, "ch".data, "se".data, cid⟩⟩))).c,
          (hlt _).2.2.1⟩ : Fin w32pow),
       (⟨(md5State (utf8Bytes (chunkContent
            ⟨"x".data, ⟨"book".data, "ch".data, "se".data, cid⟩⟩))).d,
          (hlt _).2.2.2⟩ : Fin w32pow)))
  refine ⟨c1, c2, hne, ?_⟩
  have hext : ∀ s t : MD5State, s.a = t.a → s.b = t.b → s.c = t.c → s.d = t.d →
      s = t := by
    intro s t ha hb hc hd
    cases s
    cases t
    simp_all
  have h1 := congrArg (fun t => (t.1 : Nat)) heq
  have h2 := congrArg (fun t => (t.2.1 : Nat)) heq
  have h3 := congrArg (fun t => (t.2.2.1 : Nat)) heq
  have h4 := congrArg (fun t => (t.2.2.2 : Nat)) heq
  simp only [Fin.val_mk] at h1 h2 h3 h4
  have hst := hext _ _ h1 h2 h3 h4
  unfold generate_chunk_id md5hex
  rw [hst]

/-! ### C9: a single embedding failure only skips that passage -/

theorem buildVectors_foldl {V : Type} (backend : Str → Except Unit V) :
    ∀ (batch : List Chunk) (acc : List (VectorRecord V)),
      batch.foldl (fun vecs chunk =>
        match create_embedding backend chunk.text with
        | Option.none => vecs
        | Option.some emb => vecs ++ [mkRecord chunk emb]) acc =
      acc ++ batch.filterMap
        (fun c => (create_embedding backend c.text).map (mkRecord c)) := by
  intro batch
  induction batch with
  | nil => intro acc; simp
  | cons c rest ih =>
    intro acc
    rw [List.foldl_cons, List.filterMap_cons]
    cases hm : create_embedding backend c.text with
    | none =>
      simp only [hm, Option.map_none']
      rw [ih]
    | some v =>
      simp only [hm, Option.map_some']
      rw [ih]
      simp

/-- C9: the vector list built for a batch is exactly the batch filtered
through `create_embedding` — a passage whose embedding backend raises is
mapped to `None` (not an exception) and omitted, the others are embedded
and kept, in order, so one failure never loses the batch. -/
theorem embedding_failure_skips_passage {V : Type} (backend : Str → Except Unit V) :
    (∀ batch : List Chunk, buildVectors backend batch =
      batch.filterMap (fun c => (create_embedding backend c.text).map (mkRecord c))) ∧
    (∀ (t : Str) (e : Unit), backend (pyTruncateForEmbed t) = Except.error e →
      create_embedding backend t = Option.none) := by
  constructor
  · intro batch
    unfold buildVectors
    rw [buildVectors_foldl]
    simp
  · intro t e h
    unfold create_embedding
    rw [h]

/-- Witness for C9 with an always-failing backend. -/
theorem embedding_failure_skips_passage_witness :
    create_embedding (fun _ : Str => (Except.error () : Except Unit Nat))
      ("abc".data) = Option.none :=
  (embedding_failure_skips_passage
    (fun _ : Str => (Except.error () : Except Unit Nat))).2 ("abc".data) () rfl
